import Mathlib

/-!
Verification of the `chacha20` repository: the ChaCha stream cipher
(`chacha` package, amd64 build) and the ChaCha20-Poly1305 AEAD
construction (`chacha20` package).

The Go sources contain declarations of assembly routines (`setState`,
`coreSSE2`, `coreSSSE3`, `xorBlocksSSE2`, `xorBlocksSSSE3`,
`xorBlocksAVX2`) whose bodies are not part of the given sources; those
are modelled from the specification (state layout §3, round function
§4.2, engine variants bit-identical §4.2/§4.3).  All visible Go glue
(`XORKeyStream`, `xorBlocks` dispatch, `NewCipher`, `aead.Seal`,
`aead.Open`, `authenticate`, `sliceForAppend`) is embedded directly.

Bytes are `Nat` values (kept < 256 by construction), buffers are
`List Nat`, 32-bit words are `Nat` reduced mod `2 ^ 32` at every
arithmetic step.  Go panics and error returns are both modelled as
`Except String`.
-/

/-- Left rotation of a 32-bit word, as in the ChaCha quarter-round. -/
def rotl32 (x n : Nat) : Nat :=
  ((x <<< n) ||| (x >>> (32 - n))) % 2 ^ 32

/-- Modelled from the spec: the ChaCha quarter-round on four 32-bit words
(spec §4.2); the round function itself lives in assembly files absent
from the sources. -/
def qround (a b c d : Nat) : Nat × Nat × Nat × Nat :=
  let a1 := (a + b) % 2 ^ 32
  let d1 := rotl32 (d ^^^ a1) 16
  let c1 := (c + d1) % 2 ^ 32
  let b1 := rotl32 (b ^^^ c1) 12
  let a2 := (a1 + b1) % 2 ^ 32
  let d2 := rotl32 (d1 ^^^ a2) 8
  let c2 := (c1 + d2) % 2 ^ 32
  let b2 := rotl32 (b1 ^^^ c2) 7
  (a2, b2, c2, d2)

/-- The 64-byte ChaCha cipher state, viewed as its sixteen 32-bit
little-endian words (spec §3 fixes this layout). -/
structure ChaChaState where
  w0 : Nat
  w1 : Nat
  w2 : Nat
  w3 : Nat
  w4 : Nat
  w5 : Nat
  w6 : Nat
  w7 : Nat
  w8 : Nat
  w9 : Nat
  w10 : Nat
  w11 : Nat
  w12 : Nat
  w13 : Nat
  w14 : Nat
  w15 : Nat
deriving DecidableEq

/-- Modelled from the spec: quarter-round on each of the four columns of
the 4×4 word matrix (spec §4.2). -/
def columnRound (s : ChaChaState) : ChaChaState :=
  let (a0, b0, c0, d0) := qround s.w0 s.w4 s.w8 s.w12
  let (a1, b1, c1, d1) := qround s.w1 s.w5 s.w9 s.w13
  let (a2, b2, c2, d2) := qround s.w2 s.w6 s.w10 s.w14
  let (a3, b3, c3, d3) := qround s.w3 s.w7 s.w11 s.w15
  ⟨a0, a1, a2, a3, b0, b1, b2, b3, c0, c1, c2, c3, d0, d1, d2, d3⟩

/-- Modelled from the spec: quarter-round on each of the four diagonals of
the 4×4 word matrix (spec §4.2). -/
def diagonalRound (s : ChaChaState) : ChaChaState :=
  let (a0, b0, c0, d0) := qround s.w0 s.w5 s.w10 s.w15
  let (a1, b1, c1, d1) := qround s.w1 s.w6 s.w11 s.w12
  let (a2, b2, c2, d2) := qround s.w2 s.w7 s.w8 s.w13
  let (a3, b3, c3, d3) := qround s.w3 s.w4 s.w9 s.w14
  ⟨a0, a1, a2, a3, b3, b0, b1, b2, c2, c3, c0, c1, d1, d2, d3, d0⟩

/-- One ChaCha double-round: a column round followed by a diagonal round
(spec §4.2). -/
def doubleRound (s : ChaChaState) : ChaChaState :=
  diagonalRound (columnRound s)

/-- Iterate `k` double-rounds on a state. -/
def doubleRounds : ChaChaState → Nat → ChaChaState
  | s, 0 => s
  | s, k + 1 => doubleRounds (doubleRound s) k

/-- Word-wise addition of two states mod `2 ^ 32` (the ChaCha
feed-forward step, spec §4.2). -/
def addStates (x y : ChaChaState) : ChaChaState :=
  ⟨(x.w0 + y.w0) % 2 ^ 32, (x.w1 + y.w1) % 2 ^ 32, (x.w2 + y.w2) % 2 ^ 32,
   (x.w3 + y.w3) % 2 ^ 32, (x.w4 + y.w4) % 2 ^ 32, (x.w5 + y.w5) % 2 ^ 32,
   (x.w6 + y.w6) % 2 ^ 32, (x.w7 + y.w7) % 2 ^ 32, (x.w8 + y.w8) % 2 ^ 32,
   (x.w9 + y.w9) % 2 ^ 32, (x.w10 + y.w10) % 2 ^ 32, (x.w11 + y.w11) % 2 ^ 32,
   (x.w12 + y.w12) % 2 ^ 32, (x.w13 + y.w13) % 2 ^ 32, (x.w14 + y.w14) % 2 ^ 32,
   (x.w15 + y.w15) % 2 ^ 32⟩

/-- The four little-endian bytes of a 32-bit word. -/
def le4 (x : Nat) : List Nat :=
  [x % 256, (x >>> 8) % 256, (x >>> 16) % 256, (x >>> 24) % 256]

/-- Serialize a state as 64 bytes: sixteen little-endian 32-bit words in
order (spec §3, §4.2). -/
def serializeState (s : ChaChaState) : List Nat :=
  le4 s.w0 ++ le4 s.w1 ++ le4 s.w2 ++ le4 s.w3 ++ le4 s.w4 ++ le4 s.w5 ++
  le4 s.w6 ++ le4 s.w7 ++ le4 s.w8 ++ le4 s.w9 ++ le4 s.w10 ++ le4 s.w11 ++
  le4 s.w12 ++ le4 s.w13 ++ le4 s.w14 ++ le4 s.w15

/-- Modelled from the spec: one 64-byte keystream block — `rounds / 2`
double-rounds, feed-forward addition of the original state, little-endian
serialization (spec §4.2).  This is the common semantics of the assembly
round engines `coreSSE2` / `coreSSSE3` / AVX2 batches, which the spec
requires to be bit-identical in output. -/
def chachaBlock (s : ChaChaState) (rounds : Nat) : List Nat :=
  serializeState (addStates (doubleRounds s (rounds / 2)) s)

/-- Read the `i`-th little-endian 32-bit word of a byte list (missing
bytes read as 0). -/
def le32word (l : List Nat) (i : Nat) : Nat :=
  l.getD (4 * i) 0 + 2 ^ 8 * l.getD (4 * i + 1) 0 +
    2 ^ 16 * l.getD (4 * i + 2) 0 + 2 ^ 24 * l.getD (4 * i + 3) 0

/-- Modelled from the spec: `setState` (an assembly routine absent from
the sources) builds the cipher state — constants, 8 key words, counter
word, 3 nonce words (spec §3). -/
def setState (key nonce : List Nat) (counter : Nat) : ChaChaState :=
  ⟨0x61707865, 0x3320646e, 0x79622d32, 0x6b206574,
   le32word key 0, le32word key 1, le32word key 2, le32word key 3,
   le32word key 4, le32word key 5, le32word key 6, le32word key 7,
   counter % 2 ^ 32,
   le32word nonce 0, le32word nonce 1, le32word nonce 2⟩

/-- Increment the block-counter word (word 12) of a state mod `2 ^ 32`. -/
def incCounter (s : ChaChaState) : ChaChaState :=
  { s with w12 := (s.w12 + 1) % 2 ^ 32 }

/-- The process-wide CPU-capability cache: `useAVX2`'s hardware probe
result and `useSSSE3` (chacha_amd64.go line 11, unnamed part line 10). -/
structure Caps where
  avx2 : Bool
  ssse3 : Bool

/-- From the source (unnamed part, line 10): the AVX2 path is disabled —
`var useAVX2 = supportAVX2() == 1 && false`. -/
def useAVX2 (caps : Caps) : Bool :=
  caps.avx2 && false

/-- The three block-engine variants the dispatcher chooses among. -/
inductive Engine where
  | sse2
  | ssse3
  | avx2
deriving DecidableEq

/-- The dispatch decision of `xorBlocks` (unnamed part, lines 15-23):
AVX2 when enabled and at least 128 bytes remain, else SSSE3 when
supported, else the SSE2 baseline. -/
def xorBlocksSelect (caps : Caps) (srcLen : Nat) : Engine :=
  if useAVX2 caps = true ∧ 128 ≤ srcLen then Engine.avx2
  else if caps.ssse3 = true then Engine.ssse3
  else Engine.sse2

/-- Bytewise XOR of two buffers, over the shorter length — the semantics
of the Go `xor` helper (chacha_amd64.go lines 67-88), which crypts
`min(len(src), len(with))` bytes. -/
def xorBytes (x y : List Nat) : List Nat :=
  List.zipWith (fun a b => a ^^^ b) x y

/-- Modelled from the spec: crypt `nb` consecutive full 64-byte blocks of
`src`, producing one keystream block per step and advancing the state's
counter word by one per block (spec §4.2/§4.4) — the common semantics of
the assembly `xorBlocksSSE2` / `xorBlocksSSSE3` / `xorBlocksAVX2`
routines, which crypt `len(src) - len(src) mod 64` bytes. -/
def xorBlocksLoop : Nat → List Nat → ChaChaState → Nat → List Nat × ChaChaState
  | 0, _, st, _ => ([], st)
  | k + 1, src, st, r =>
    let blk := chachaBlock st r
    let rest := xorBlocksLoop k (src.drop 64) (incCounter st) r
    (xorBytes (src.take 64) blk ++ rest.1, rest.2)

/-- Modelled from the spec: the SSE2 baseline batch engine, crypting all
full blocks of `src`. -/
def xorBlocksSSE2 (src : List Nat) (st : ChaChaState) (r : Nat) : List Nat × ChaChaState :=
  xorBlocksLoop (src.length / 64) src st r

/-- Modelled from the spec: the SSSE3 batch engine — bit-identical to the
baseline (spec §4.2). -/
def xorBlocksSSSE3 (src : List Nat) (st : ChaChaState) (r : Nat) : List Nat × ChaChaState :=
  xorBlocksLoop (src.length / 64) src st r

/-- Modelled from the spec: the AVX2 batch engine — bit-identical to the
baseline (spec §4.2). -/
def xorBlocksAVX2 (src : List Nat) (st : ChaChaState) (r : Nat) : List Nat × ChaChaState :=
  xorBlocksLoop (src.length / 64) src st r

/-- The `xorBlocks` dispatcher (unnamed part, lines 15-23): select an
engine by capability and length, then crypt all full 64-byte blocks. -/
def xorBlocks (caps : Caps) (src : List Nat) (st : ChaChaState) (r : Nat) :
    List Nat × ChaChaState :=
  match xorBlocksSelect caps src.length with
  | Engine.avx2 => xorBlocksAVX2 src st r
  | Engine.ssse3 => xorBlocksSSSE3 src st r
  | Engine.sse2 => xorBlocksSSE2 src st r

/-- Modelled from the spec: the SSE2 single-block engine `coreSSE2` —
one keystream block, counter incremented (chacha_amd64.go doc of `Core`,
spec §4.2). -/
def coreSSE2 (st : ChaChaState) (r : Nat) : List Nat × ChaChaState :=
  (chachaBlock st r, incCounter st)

/-- Modelled from the spec: the SSSE3 single-block engine `coreSSSE3` —
bit-identical to the baseline (spec §4.2). -/
def coreSSSE3 (st : ChaChaState) (r : Nat) : List Nat × ChaChaState :=
  (chachaBlock st r, incCounter st)

/-- The `Core` dispatcher (chacha_amd64.go lines 56-62): SSSE3 engine
when supported, else SSE2. -/
def Core (caps : Caps) (st : ChaChaState) (r : Nat) : List Nat × ChaChaState :=
  if caps.ssse3 = true then coreSSSE3 st r else coreSSE2 st r

/-- The crypting body of `XORKeyStream` (chacha_amd64.go lines 26-37,
after the two validation panics): build the state, crypt full blocks via
`xorBlocks` when at least 64 bytes, then XOR the 0-63 leftover bytes with
a prefix of one extra `Core` block. -/
def xorKeyStreamCore (caps : Caps) (src key nonce : List Nat) (counter r : Nat) : List Nat :=
  let st := setState key nonce counter
  let res := if 64 ≤ src.length then xorBlocks caps src st r else ([], st)
  let n := src.length / 64 * 64
  if 0 < src.length - n then
    res.1 ++ xorBytes (src.drop n) (Core caps res.2 r).1
  else
    res.1

/-- `XORKeyStream` (chacha_amd64.go lines 17-38).  The two Go panics are
modelled as `Except.error` with the panic messages; on success the first
`len(src)` bytes of `dst` are replaced by the crypted bytes and the rest
of `dst` is untouched. -/
def XORKeyStream (caps : Caps) (dst src nonce key : List Nat) (counter : Nat)
    (rounds : Int) : Except String (List Nat) :=
  if dst.length < src.length then
    Except.error "chacha20/chacha: dst buffer is to small"
  else if rounds ≤ 0 ∨ rounds % 2 ≠ 0 then
    Except.error "chacha20/chacha: rounds must be a multiple of 2"
  else
    Except.ok (xorKeyStreamCore caps src key nonce counter rounds.toNat ++
      dst.drop src.length)

/-- The stream-cipher handle: a state snapshot plus the round count
(spec §3 "Cipher"). -/
structure Cipher where
  state : ChaChaState
  rounds : Int

/-- `NewCipher` (chacha_amd64.go lines 42-51): validate the round count,
then build a handle seeded at counter 0; the panic is modelled as
`Except.error`. -/
def NewCipher (nonce key : List Nat) (rounds : Int) : Except String Cipher :=
  if rounds ≤ 0 ∨ rounds % 2 ≠ 0 then
    Except.error "chacha20/chacha: rounds must be a multiply of 2"
  else
    Except.ok ⟨setState key nonce 0, rounds⟩

/-- Max tag size of the AEAD: `poly1305.TagSize` (16 bytes). -/
def TagSize : Nat := 16

/-- Nonce size of the AEAD (12 bytes; `NonceSize` constant of the
`chacha` package, spec §3). -/
def NonceSize : Nat := 12

/-- The single authentication-failure error value `errAuthFailed`. -/
def errAuthFailed : String := "authentication failed"

/-- The invalid-nonce-size error value `errInvalidNonceSize`. -/
def errInvalidNonceSize : String := "nonce size is invalid"

/-- The streaming state of the external MAC primitive: the key it was
constructed with and the bytes absorbed so far (spec §6, required
collaborator interface). -/
structure MACState where
  key : List Nat
  absorbed : List Nat

/-- `poly1305.New`: a fresh MAC state over a key. -/
def polyNew (key : List Nat) : MACState :=
  ⟨key, []⟩

/-- `Write`: streaming absorb, appending bytes in order. -/
def polyWrite (st : MACState) (bs : List Nat) : MACState :=
  ⟨st.key, st.absorbed ++ bs⟩

/-- `Sum`: finalize.  The MAC compression itself is an external black
box, passed in as the function `mac` from key and absorbed bytes to the
16-byte tag. -/
def polySum (mac : List Nat → List Nat → List Nat) (st : MACState) : List Nat :=
  mac st.key st.absorbed

/-- The eight little-endian bytes of a 64-bit length, as `authenticate`
builds them with byte shifts (chacha_amd64.go lines 237-252). -/
def le8 (n : Nat) : List Nat :=
  [n % 256, (n >>> 8) % 256, (n >>> 16) % 256, (n >>> 24) % 256,
   (n >>> 32) % 256, (n >>> 40) % 256, (n >>> 48) % 256, (n >>> 56) % 256]

/-- `authenticate` (chacha_amd64.go lines 231-265): absorb the
additional data, zero padding when its length is not a multiple of 16,
the ciphertext, zero padding likewise, then the 16-byte little-endian
length trailer, and finalize. -/
def authenticate (mac : List Nat → List Nat → List Nat)
    (ciphertext additionalData key : List Nat) : List Nat :=
  let ctLen := ciphertext.length
  let adLen := additionalData.length
  let padAD := adLen % TagSize
  let padCT := ctLen % TagSize
  let buf := le8 adLen ++ le8 ctLen
  let p0 := polyNew key
  let p1 := polyWrite p0 additionalData
  let p2 := if 0 < padAD then polyWrite p1 (List.replicate (16 - padAD) 0) else p1
  let p3 := polyWrite p2 ciphertext
  let p4 := if 0 < padCT then polyWrite p3 (List.replicate (16 - padCT) 0) else p3
  let p5 := polyWrite p4 buf
  polySum mac p5

/-- `subtle.ConstantTimeCompare`: 1 when the two buffers have equal
length and equal contents, 0 otherwise. -/
def constantTimeCompare (x y : List Nat) : Nat :=
  if x = y then 1 else 0

/-- `sliceForAppend` (chacha_amd64.go lines 271-280), value-level: the
head is the input followed by `n` fresh (zero) bytes, the tail is those
`n` bytes. -/
def sliceForAppend (inp : List Nat) (n : Nat) : List Nat × List Nat :=
  (inp ++ List.replicate n 0, List.replicate n 0)

/-- The one-time Poly1305 key of `Seal` / `Open` (chacha_amd64.go lines
180-184, 207-211): 32 zero bytes crypted with counter 0 and 20 rounds. -/
def sealPolyKey (caps : Caps) (key nonce : List Nat) : List Nat :=
  xorKeyStreamCore caps (List.replicate 32 0) key nonce 0 20

/-- The ciphertext of `Seal` (chacha_amd64.go line 189): the plaintext
crypted with counter 1 and 20 rounds. -/
def sealCipher (caps : Caps) (key nonce plaintext : List Nat) : List Nat :=
  xorKeyStreamCore caps plaintext key nonce 1 20

/-- The full 16-byte tag computed by `Seal` (chacha_amd64.go lines
192-193). -/
def sealTag (caps : Caps) (mac : List Nat → List Nat → List Nat)
    (key nonce plaintext additionalData : List Nat) : List Nat :=
  authenticate mac (sealCipher caps key nonce plaintext) additionalData
    (sealPolyKey caps key nonce)

/-- The bytes `Seal` appends to `dst`: ciphertext followed by the first
`tagsize` bytes of the tag (chacha_amd64.go lines 186-196). -/
def sealBytes (caps : Caps) (mac : List Nat → List Nat → List Nat)
    (key : List Nat) (tagsize : Nat) (nonce plaintext additionalData : List Nat) : List Nat :=
  sealCipher caps key nonce plaintext ++
    (sealTag caps mac key nonce plaintext additionalData).take tagsize

/-- `aead.Seal` (chacha_amd64.go lines 175-197).  The nonce-size panic is
modelled as `Except.error` with the panic message. -/
def Seal (caps : Caps) (mac : List Nat → List Nat → List Nat)
    (key : List Nat) (tagsize : Nat) (dst nonce plaintext additionalData : List Nat) :
    Except String (List Nat) :=
  if nonce.length ≠ NonceSize then
    Except.error ("chacha20: " ++ errInvalidNonceSize)
  else
    Except.ok (dst ++ sealBytes caps mac key tagsize nonce plaintext additionalData)

/-- `aead.Open` (chacha_amd64.go lines 199-227): validate the nonce
length, reject inputs shorter than the tag, recompute and compare the
tag in constant time, and only then decrypt. -/
def Open (caps : Caps) (mac : List Nat → List Nat → List Nat)
    (key : List Nat) (tagsize : Nat) (dst nonce ciphertext additionalData : List Nat) :
    Except String (List Nat) :=
  if nonce.length ≠ NonceSize then
    Except.error errInvalidNonceSize
  else if ciphertext.length < tagsize then
    Except.error errAuthFailed
  else
    let polyKey := sealPolyKey caps key nonce
    let n := ciphertext.length - tagsize
    let tag := authenticate mac (ciphertext.take n) additionalData polyKey
    let sum := ciphertext.drop n
    if constantTimeCompare (tag.take tagsize) (sum.take tagsize) ≠ 1 then
      Except.error errAuthFailed
    else
      Except.ok (dst ++ xorKeyStreamCore caps (ciphertext.take n) key nonce 1 20)

/-- A `chachaBlock` is 64 bytes long. -/
theorem length_chachaBlock (s : ChaChaState) (r : Nat) : (chachaBlock s r).length = 64 := by
  simp [chachaBlock, serializeState, le4]

/-- Incrementing the counter word of a freshly built state is the same as
building the state with the next counter value. -/
theorem incCounter_setState (key nonce : List Nat) (c : Nat) :
    incCounter (setState key nonce c) = setState key nonce (c + 1) := by
  simp [incCounter, setState]

/-- The reference keystream: `m` consecutive 64-byte blocks, one per
counter value starting at `c`. -/
def keystreamN (key nonce : List Nat) (c r : Nat) : Nat → List Nat
  | 0 => []
  | k + 1 => chachaBlock (setState key nonce c) r ++ keystreamN key nonce (c + 1) r k

/-- `m` keystream blocks are `64 * m` bytes. -/
theorem length_keystreamN (key nonce : List Nat) (r : Nat) :
    ∀ (m c : Nat), (keystreamN key nonce c r m).length = 64 * m := by
  intro m
  induction m with
  | zero => intro c; rfl
  | succ k ih =>
    intro c
    simp only [keystreamN, List.length_append, length_chachaBlock, ih (c + 1)]
    ring

/-- Peeling the last keystream block off the end. -/
theorem keystreamN_succ (key nonce : List Nat) (r : Nat) :
    ∀ (m c : Nat), keystreamN key nonce c r (m + 1) =
      keystreamN key nonce c r m ++ chachaBlock (setState key nonce (c + m)) r := by
  intro m
  induction m with
  | zero =>
    intro c
    show keystreamN key nonce c r 1 =
      keystreamN key nonce c r 0 ++ chachaBlock (setState key nonce c) r
    rw [show keystreamN key nonce c r 1 =
        chachaBlock (setState key nonce c) r ++ [] from rfl]
    rw [show keystreamN key nonce c r 0 = [] from rfl]
    rw [List.append_nil, List.nil_append]
  | succ k ih =>
    intro c
    rw [show keystreamN key nonce c r (k + 1 + 1) =
        chachaBlock (setState key nonce c) r ++ keystreamN key nonce (c + 1) r (k + 1)
        from rfl]
    rw [show keystreamN key nonce c r (k + 1) =
        chachaBlock (setState key nonce c) r ++ keystreamN key nonce (c + 1) r k
        from rfl]
    rw [ih (c + 1), List.append_assoc]
    rw [show c + 1 + k = c + (k + 1) from by omega]

/-- `xorBytes` distributes over appends of equal-length prefixes. -/
theorem xorBytes_append (a b c d : List Nat) (h : a.length = c.length) :
    xorBytes (a ++ b) (c ++ d) = xorBytes a c ++ xorBytes b d :=
  List.zipWith_append _ _ _ _ _ h

/-- `xorBytes` crypts over the shorter of the two buffers. -/
theorem length_xorBytes (x y : List Nat) :
    (xorBytes x y).length = min x.length y.length := by
  simp [xorBytes]

/-- Keystream beyond the source length is irrelevant. -/
theorem xorBytes_append_right (l : List Nat) :
    ∀ (a b : List Nat), l.length ≤ a.length → xorBytes l (a ++ b) = xorBytes l a := by
  induction l with
  | nil => intro a b _; simp [xorBytes]
  | cons x xs ih =>
    intro a b h
    cases a with
    | nil => simp at h
    | cons y ys =>
      have h' : xs.length ≤ ys.length := by simp at h; omega
      simp only [List.cons_append, xorBytes, List.zipWith_cons_cons] at *
      rw [ih ys b h']

/-- Truncating the source above the keystream length changes nothing. -/
theorem xorBytes_take_left (a : List Nat) :
    ∀ (l : List Nat) (m : Nat), a.length ≤ m → xorBytes (l.take m) a = xorBytes l a := by
  induction a with
  | nil => intro l m _; simp [xorBytes]
  | cons y ys ih =>
    intro l m h
    cases l with
    | nil => simp
    | cons x xs =>
      cases m with
      | zero => simp at h
      | succ m' =>
        have h' : ys.length ≤ m' := by simp at h; omega
        simp only [List.take_succ_cons, xorBytes, List.zipWith_cons_cons] at *
        rw [ih xs m' h']

/-- XORing twice with the same (long enough) keystream is the identity. -/
theorem xorBytes_cancel (l : List Nat) :
    ∀ (ks : List Nat), l.length ≤ ks.length → xorBytes (xorBytes l ks) ks = l := by
  induction l with
  | nil => intro ks _; simp [xorBytes]
  | cons x xs ih =>
    intro ks h
    cases ks with
    | nil => simp at h
    | cons k ks' =>
      have h' : xs.length ≤ ks'.length := by simp at h; omega
      simp only [xorBytes, List.zipWith_cons_cons] at *
      rw [Nat.xor_cancel_right, ih ks' h']

/-- XORing a zero buffer extracts a keystream prefix. -/
theorem xorBytes_replicate_zero :
    ∀ (n : Nat) (l : List Nat), xorBytes (List.replicate n 0) l = l.take n := by
  intro n
  induction n with
  | zero => intro l; simp [xorBytes]
  | succ k ih =>
    intro l
    cases l with
    | nil => simp [xorBytes]
    | cons x xs =>
      simp only [List.replicate_succ, xorBytes, List.zipWith_cons_cons,
        List.take_succ_cons, Nat.zero_xor] at *
      rw [ih xs]

/-- All three selected engines compute the same full-block crypt — the
dispatch never changes the produced bytes. -/
theorem xorBlocks_eq (caps : Caps) (src : List Nat) (st : ChaChaState) (r : Nat) :
    xorBlocks caps src st r = xorBlocksLoop (src.length / 64) src st r := by
  unfold xorBlocks
  split <;> rfl

/-- Both single-block engines behind `Core` produce the block and bump
the counter. -/
theorem Core_eq (caps : Caps) (st : ChaChaState) (r : Nat) :
    Core caps st r = (chachaBlock st r, incCounter st) := by
  unfold Core
  split <;> rfl

/-- The full-block loop over a fresh state crypts with the reference
keystream and leaves the counter advanced by the block count. -/
theorem xorBlocksLoop_eq (key nonce : List Nat) (r : Nat) :
    ∀ (m : Nat) (src : List Nat) (c : Nat), 64 * m ≤ src.length →
      xorBlocksLoop m src (setState key nonce c) r =
        (xorBytes src (keystreamN key nonce c r m), setState key nonce (c + m)) := by
  intro m
  induction m with
  | zero =>
    intro src c _
    rw [show keystreamN key nonce c r 0 = [] from rfl]
    rw [show xorBytes src [] = [] from List.zipWith_nil_right]
    rfl
  | succ k ih =>
    intro src c h
    have hdrop : 64 * k ≤ (src.drop 64).length := by
      rw [List.length_drop]; omega
    show (xorBytes (src.take 64) (chachaBlock (setState key nonce c) r) ++
        (xorBlocksLoop k (src.drop 64) (incCounter (setState key nonce c)) r).1,
        (xorBlocksLoop k (src.drop 64) (incCounter (setState key nonce c)) r).2) = _
    rw [incCounter_setState, ih (src.drop 64) (c + 1) hdrop]
    show (xorBytes (src.take 64) (chachaBlock (setState key nonce c) r) ++
        xorBytes (src.drop 64) (keystreamN key nonce (c + 1) r k),
        setState key nonce (c + 1 + k)) = _
    rw [show keystreamN key nonce c r (k + 1) =
        chachaBlock (setState key nonce c) r ++ keystreamN key nonce (c + 1) r k
        from rfl]
    have htake : (src.take 64).length = (chachaBlock (setState key nonce c) r).length := by
      rw [List.length_take, length_chachaBlock]; omega
    conv_rhs => rw [← List.take_append_drop 64 src]
    rw [xorBytes_append _ _ _ _ htake]
    rw [show c + 1 + k = c + (k + 1) from by omega]

/-- The crypting body of `XORKeyStream` equals a plain XOR of `src` with
the reference keystream (one block per counter value, starting at `c`),
independently of the dispatched engine. -/
theorem xorKeyStreamCore_eq (caps : Caps) (src key nonce : List Nat) (c r : Nat) :
    xorKeyStreamCore caps src key nonce c r =
      xorBytes src (keystreamN key nonce c r (src.length / 64 + 1)) := by
  simp only [xorKeyStreamCore]
  rw [xorBlocks_eq]
  by_cases h64 : 64 ≤ src.length
  · rw [if_pos h64]
    have hnb : 64 * (src.length / 64) ≤ src.length := by omega
    rw [xorBlocksLoop_eq key nonce r (src.length / 64) src c hnb]
    by_cases hm : 0 < src.length - src.length / 64 * 64
    · rw [if_pos hm, Core_eq]
      show xorBytes src (keystreamN key nonce c r (src.length / 64)) ++
          xorBytes (src.drop (src.length / 64 * 64))
            (chachaBlock (setState key nonce (c + src.length / 64)) r) =
          xorBytes src (keystreamN key nonce c r (src.length / 64 + 1))
      rw [keystreamN_succ key nonce r (src.length / 64) c]
      obtain ⟨q, hq⟩ : ∃ q, src.length / 64 = q := ⟨_, rfl⟩
      rw [hq] at hm hnb ⊢
      have hlen : (src.take (q * 64)).length =
          (keystreamN key nonce c r q).length := by
        rw [List.length_take, length_keystreamN]; omega
      conv_rhs => rw [← List.take_append_drop (q * 64) src]
      rw [xorBytes_append _ _ _ _ hlen]
      rw [xorBytes_take_left (keystreamN key nonce c r q) src (q * 64)
        (by rw [length_keystreamN]; omega)]
    · rw [if_neg hm]
      show xorBytes src (keystreamN key nonce c r (src.length / 64)) =
          xorBytes src (keystreamN key nonce c r (src.length / 64 + 1))
      rw [keystreamN_succ key nonce r (src.length / 64) c]
      rw [xorBytes_append_right src (keystreamN key nonce c r (src.length / 64))
        (chachaBlock (setState key nonce (c + src.length / 64)) r)
        (by rw [length_keystreamN]; omega)]
  · rw [if_neg h64]
    have hnb0 : src.length / 64 = 0 := Nat.div_eq_of_lt (by omega)
    rw [hnb0]
    by_cases hz : 0 < src.length - 0 * 64
    · rw [if_pos hz, Core_eq]
      show ([] : List Nat) ++ xorBytes (src.drop (0 * 64))
          (chachaBlock (setState key nonce c) r) =
          xorBytes src (keystreamN key nonce c r (0 + 1))
      rw [List.nil_append]
      rw [show src.drop (0 * 64) = src from List.drop_zero src]
      rw [show keystreamN key nonce c r (0 + 1) =
          chachaBlock (setState key nonce c) r ++ [] from rfl]
      rw [xorBytes_append_right src (chachaBlock (setState key nonce c) r) []
        (by rw [length_chachaBlock]; omega)]
    · rw [if_neg hz]
      have hsrc : src = [] := by
        have h0 : src.length = 0 := by omega
        exact List.length_eq_zero.mp h0
      rw [hsrc]
      rfl

/-- `xorKeyStreamCore` preserves the source length: exactly `len(src)`
bytes are produced. -/
theorem length_xorKeyStreamCore (caps : Caps) (src key nonce : List Nat) (c r : Nat) :
    (xorKeyStreamCore caps src key nonce c r).length = src.length := by
  rw [xorKeyStreamCore_eq, length_xorBytes, length_keystreamN]
  omega

/-- Crypting twice with the same key, nonce, counter and rounds restores
the source, for any two capability sets. -/
theorem xorKeyStreamCore_cancel (caps caps2 : Caps) (src key nonce : List Nat) (c r : Nat) :
    xorKeyStreamCore caps2 (xorKeyStreamCore caps src key nonce c r) key nonce c r = src := by
  have hlen := length_xorKeyStreamCore caps src key nonce c r
  rw [xorKeyStreamCore_eq caps2, hlen, xorKeyStreamCore_eq caps]
  exact xorBytes_cancel src _ (by rw [length_keystreamN]; omega)

/-- The capability set never changes the crypted bytes. -/
theorem xorKeyStreamCore_caps (caps caps2 : Caps) (src key nonce : List Nat) (c r : Nat) :
    xorKeyStreamCore caps src key nonce c r = xorKeyStreamCore caps2 src key nonce c r := by
  rw [xorKeyStreamCore_eq, xorKeyStreamCore_eq]

/-- The ciphertext of `Seal` has the plaintext's length. -/
theorem length_sealCipher (caps : Caps) (key nonce plaintext : List Nat) :
    (sealCipher caps key nonce plaintext).length = plaintext.length :=
  length_xorKeyStreamCore caps plaintext key nonce 1 20

/-- The tag computed by `Seal` is the MAC primitive's full 16-byte tag. -/
theorem length_sealTag (caps : Caps) (mac : List Nat → List Nat → List Nat)
    (key nonce plaintext additionalData : List Nat)
    (hmac : ∀ k m, (mac k m).length = 16) :
    (sealTag caps mac key nonce plaintext additionalData).length = 16 :=
  hmac _ _

/-- The bytes `Seal` appends are ciphertext plus truncated tag:
`len(plaintext) + tagsize` bytes. -/
theorem length_sealBytes (caps : Caps) (mac : List Nat → List Nat → List Nat)
    (key : List Nat) (tagsize : Nat) (nonce plaintext additionalData : List Nat)
    (hmac : ∀ k m, (mac k m).length = 16) (hts : tagsize ≤ 16) :
    (sealBytes caps mac key tagsize nonce plaintext additionalData).length =
      plaintext.length + tagsize := by
  unfold sealBytes
  rw [List.length_append, length_sealCipher, List.length_take,
    length_sealTag caps mac key nonce plaintext additionalData hmac]
  omega

/-- C3: in both `Seal` and `Open` the one-time MAC key is the first 32
bytes of the keystream block at counter 0 (the encryption of 32 zero
bytes), and the tag is the MAC of exactly: associatedData, zero padding
to the next multiple of 16, ciphertext, zero padding to the next
multiple of 16, then the little-endian 64-bit lengths of associatedData
and ciphertext. -/
theorem mac_key_and_tag_message (caps : Caps) (mac : List Nat → List Nat → List Nat)
    (key nonce ct ad pkey : List Nat) :
    sealPolyKey caps key nonce = (chachaBlock (setState key nonce 0) 20).take 32 ∧
    authenticate mac ct ad pkey =
      mac pkey (ad ++ List.replicate ((16 - ad.length % 16) % 16) 0 ++
        ct ++ List.replicate ((16 - ct.length % 16) % 16) 0 ++
        (le8 ad.length ++ le8 ct.length)) := by
  constructor
  · unfold sealPolyKey
    rw [xorKeyStreamCore_eq, List.length_replicate]
    rw [show (32 / 64 + 1 : Nat) = 1 from rfl]
    rw [show keystreamN key nonce 0 20 1 =
        chachaBlock (setState key nonce 0) 20 ++ [] from rfl]
    rw [List.append_nil]
    exact xorBytes_replicate_zero 32 _
  · simp only [authenticate, polyNew, polyWrite, polySum, TagSize]
    by_cases hA : 0 < ad.length % 16
    · rw [if_pos hA]
      by_cases hC : 0 < ct.length % 16
      · rw [if_pos hC]
        rw [show (16 - ad.length % 16) % 16 = 16 - ad.length % 16 from
          Nat.mod_eq_of_lt (by omega)]
        rw [show (16 - ct.length % 16) % 16 = 16 - ct.length % 16 from
          Nat.mod_eq_of_lt (by omega)]
        simp only [List.nil_append, List.append_assoc]
      · rw [if_neg hC]
        rw [show ct.length % 16 = 0 from by omega]
        rw [show (16 - ad.length % 16) % 16 = 16 - ad.length % 16 from
          Nat.mod_eq_of_lt (by omega)]
        rw [show ((16 - 0) % 16 : Nat) = 0 from rfl, List.replicate_zero]
        simp only [List.nil_append, List.append_nil, List.append_assoc]
    · rw [if_neg hA]
      rw [show ad.length % 16 = 0 from by omega]
      rw [show ((16 - 0) % 16 : Nat) = 0 from rfl, List.replicate_zero]
      by_cases hC : 0 < ct.length % 16
      · rw [if_pos hC]
        rw [show (16 - ct.length % 16) % 16 = 16 - ct.length % 16 from
          Nat.mod_eq_of_lt (by omega)]
        simp only [List.nil_append, List.append_nil, List.append_assoc]
      · rw [if_neg hC]
        rw [show ct.length % 16 = 0 from by omega]
        rw [show ((16 - 0) % 16 : Nat) = 0 from rfl, List.replicate_zero]
        simp only [List.nil_append, List.append_nil, List.append_assoc]

/-- C5: for `len(dst) >= len(src)` and a positive even round count,
`XORKeyStream` succeeds and writes `src XOR keystream` — one keystream
block per counter value starting at `counter` — for exactly `len(src)`
bytes, leaving the rest of `dst` untouched. -/
theorem xorkeystream_spec (caps : Caps) (dst src nonce key : List Nat) (c : Nat)
    (rounds : Int) (hd : src.length ≤ dst.length) (h1 : 0 < rounds)
    (h2 : rounds % 2 = 0) :
    XORKeyStream caps dst src nonce key c rounds =
      Except.ok (xorBytes src (keystreamN key nonce c rounds.toNat (src.length / 64 + 1)) ++
        dst.drop src.length) ∧
    (xorKeyStreamCore caps src key nonce c rounds.toNat).length = src.length := by
  constructor
  · unfold XORKeyStream
    rw [if_neg (by omega), if_neg (by omega), xorKeyStreamCore_eq]
  · exact length_xorKeyStreamCore caps src key nonce c rounds.toNat

/-- Witness for C5 at a concrete input. -/
theorem xorkeystream_spec_witness :
    (0 : Int) < 20 ∧
    XORKeyStream ⟨false, false⟩ [] [] [] [] 0 20 =
      Except.ok (xorBytes [] (keystreamN [] [] 0 (20 : Int).toNat (([] : List Nat).length / 64 + 1)) ++
        ([] : List Nat).drop ([] : List Nat).length) ∧
    (xorKeyStreamCore ⟨false, false⟩ [] [] [] 0 (20 : Int).toNat).length =
      ([] : List Nat).length :=
  ⟨by decide,
    (xorkeystream_spec ⟨false, false⟩ [] [] [] [] 0 20 (by decide) (by decide) (by decide)).1,
    (xorkeystream_spec ⟨false, false⟩ [] [] [] [] 0 20 (by decide) (by decide) (by decide)).2⟩

/-- Counterexample to C7 as stated: with `dst` too small AND an odd
round count, `XORKeyStream` signals the invalid-size error, not the
invalid-rounds error — the size check runs first, so "signals an
invalid-rounds error whenever rounds is not a positive even number" is
false when both violations hold. -/
theorem xorkeystream_rounds_error_counterexample :
    ¬ (XORKeyStream ⟨false, false⟩ [] [0] [] [] 0 3 =
      Except.error "chacha20/chacha: rounds must be a multiple of 2") := by
  rw [show XORKeyStream ⟨false, false⟩ [] [0] [] [] 0 3 =
      Except.error "chacha20/chacha: dst buffer is to small" from rfl]
  intro h
  injection h with h'
  exact absurd h' (by decide)

/-- C7 amended: `XORKeyStream` signals the invalid-size error whenever
`len(dst) < len(src)`; it signals the invalid-rounds error whenever the
size check passes and `rounds` is not a positive even number (the size
check takes precedence); both failures produce no output bytes; and
`NewCipher` fails on a non-positive or odd round count. -/
theorem xorkeystream_validation (caps : Caps) (dst src nonce key : List Nat)
    (c : Nat) (rounds : Int) :
    (dst.length < src.length →
      XORKeyStream caps dst src nonce key c rounds =
        Except.error "chacha20/chacha: dst buffer is to small") ∧
    (src.length ≤ dst.length → (rounds ≤ 0 ∨ rounds % 2 ≠ 0) →
      XORKeyStream caps dst src nonce key c rounds =
        Except.error "chacha20/chacha: rounds must be a multiple of 2") ∧
    ((rounds ≤ 0 ∨ rounds % 2 ≠ 0) →
      NewCipher nonce key rounds =
        Except.error "chacha20/chacha: rounds must be a multiply of 2") := by
  refine ⟨?_, ?_, ?_⟩
  · intro h
    unfold XORKeyStream
    rw [if_pos h]
  · intro hd h
    unfold XORKeyStream
    rw [if_neg (by omega), if_pos h]
  · intro h
    unfold NewCipher
    rw [if_pos h]

/-- Witness for the amended C7 at concrete inputs. -/
theorem xorkeystream_validation_witness :
    ([] : List Nat).length < [(0 : Nat)].length ∧
    XORKeyStream ⟨false, false⟩ [] [0] [] [] 0 2 =
      Except.error "chacha20/chacha: dst buffer is to small" ∧
    XORKeyStream ⟨false, false⟩ [] [] [] [] 0 3 =
      Except.error "chacha20/chacha: rounds must be a multiple of 2" ∧
    NewCipher [] [] 0 =
      Except.error "chacha20/chacha: rounds must be a multiply of 2" :=
  ⟨by decide,
    (xorkeystream_validation ⟨false, false⟩ [] [0] [] [] 0 2).1 (by decide),
    (xorkeystream_validation ⟨false, false⟩ [] [] [] [] 0 3).2.1 (by decide)
      (Or.inr (by decide)),
    (xorkeystream_validation ⟨false, false⟩ [] [] [] [] 0 0).2.2 (Or.inl (by decide))⟩

/-- Counterexample to C9 as stated: with AVX2 supported by the hardware,
SSSE3 supported, and a 128-byte buffer, the dispatcher does NOT select
the AVX2 variant (the source disables AVX2 outright:
`useAVX2 = supportAVX2() == 1 && false`); it selects SSSE3. -/
theorem dispatch_avx2_counterexample :
    ¬ (xorBlocksSelect ⟨true, true⟩ 128 = Engine.avx2) := by
  decide

/-- C9 amended: the dispatcher is a deterministic function of the
capability set and length, it never selects the AVX2 variant (which the
source disables), and otherwise prefers SSSE3 when supported, falling
back to the SSE2 baseline, which handles any length of at least one
block. -/
theorem dispatch_selection (caps : Caps) (len : Nat) :
    xorBlocksSelect caps len =
      (if caps.ssse3 = true then Engine.ssse3 else Engine.sse2) ∧
    xorBlocksSelect caps len ≠ Engine.avx2 := by
  have h : ¬(useAVX2 caps = true ∧ 128 ≤ len) := by
    unfold useAVX2
    simp
  unfold xorBlocksSelect
  rw [if_neg h]
  by_cases hs : caps.ssse3 = true
  · rw [if_pos hs]
    exact ⟨rfl, by decide⟩
  · rw [if_neg hs]
    exact ⟨rfl, by decide⟩

/-- C6: for every nonce whose length is not 12, `Seal` panics with and
`Open` returns the invalid-nonce-size error, before any output and — in
`Open` — before the truncation check and any cryptographic work: the
conclusion holds for every sealed input, including ones shorter than the
tag. -/
theorem nonce_size_validation (caps : Caps) (mac : List Nat → List Nat → List Nat)
    (key : List Nat) (ts : Nat) (dst nonce pt ct ad : List Nat)
    (h : nonce.length ≠ 12) :
    Seal caps mac key ts dst nonce pt ad =
      Except.error ("chacha20: " ++ errInvalidNonceSize) ∧
    Open caps mac key ts dst nonce ct ad = Except.error errInvalidNonceSize := by
  have hn : nonce.length ≠ NonceSize := h
  constructor
  · unfold Seal
    rw [if_pos hn]
  · unfold Open
    rw [if_pos hn]

/-- Witness for C6: an 11-byte nonce is rejected by both operations, even
with a sealed input shorter than the tag size. -/
theorem nonce_size_validation_witness :
    (List.replicate 11 0).length ≠ 12 ∧
    Seal ⟨false, false⟩ (fun _ _ => List.replicate 16 0) (List.replicate 32 0) 16 []
        (List.replicate 11 0) [] [] =
      Except.error ("chacha20: " ++ errInvalidNonceSize) ∧
    Open ⟨false, false⟩ (fun _ _ => List.replicate 16 0) (List.replicate 32 0) 16 []
        (List.replicate 11 0) [] [] =
      Except.error errInvalidNonceSize :=
  ⟨by decide,
    (nonce_size_validation ⟨false, false⟩ (fun _ _ => List.replicate 16 0)
      (List.replicate 32 0) 16 [] (List.replicate 11 0) [] [] [] (by decide)).1,
    (nonce_size_validation ⟨false, false⟩ (fun _ _ => List.replicate 16 0)
      (List.replicate 32 0) 16 [] (List.replicate 11 0) [] [] [] (by decide)).2⟩

/-- C8: `Seal` is a pure function of (key, nonce, plaintext, associated
data, tag size): its output does not depend on the process-wide
capability cache — the only ambient state the source reads — so two
invocations with identical inputs are byte-identical. -/
theorem seal_deterministic (caps caps2 : Caps) (mac : List Nat → List Nat → List Nat)
    (key : List Nat) (ts : Nat) (dst nonce pt ad : List Nat) :
    Seal caps mac key ts dst nonce pt ad = Seal caps2 mac key ts dst nonce pt ad := by
  unfold Seal sealBytes sealTag sealCipher sealPolyKey
  rw [xorKeyStreamCore_caps caps caps2 pt key nonce 1 20,
    xorKeyStreamCore_caps caps caps2 (List.replicate 32 0) key nonce 0 20]

/-- C10: `Seal` appends to `dst`: the result is the original `dst`
followed by ciphertext and truncated tag, so its first `len(dst)` bytes
are the unchanged bytes of `dst` and its length is
`len(dst) + len(plaintext) + tagsize`. -/
theorem seal_appends_to_dst (caps : Caps) (mac : List Nat → List Nat → List Nat)
    (key : List Nat) (ts : Nat) (dst nonce pt ad : List Nat)
    (hnonce : nonce.length = 12) (hmac : ∀ k m, (mac k m).length = 16)
    (hts : ts ≤ 16) :
    Seal caps mac key ts dst nonce pt ad =
      Except.ok (dst ++ sealBytes caps mac key ts nonce pt ad) ∧
    (dst ++ sealBytes caps mac key ts nonce pt ad).take dst.length = dst ∧
    (dst ++ sealBytes caps mac key ts nonce pt ad).length =
      dst.length + (pt.length + ts) := by
  have hn : ¬(nonce.length ≠ NonceSize) := by
    rw [hnonce]
    intro hx
    exact hx rfl
  refine ⟨?_, ?_, ?_⟩
  · unfold Seal
    rw [if_neg hn]
  · exact List.take_left dst _
  · rw [List.length_append, length_sealBytes caps mac key ts nonce pt ad hmac hts]

/-- Witness for C10 with a nonempty `dst`. -/
theorem seal_appends_to_dst_witness :
    (List.replicate 12 0).length = 12 ∧
    Seal ⟨false, false⟩ (fun _ _ => List.replicate 16 0) (List.replicate 32 0) 16 [7]
        (List.replicate 12 0) [] [] =
      Except.ok ([7] ++ sealBytes ⟨false, false⟩ (fun _ _ => List.replicate 16 0)
        (List.replicate 32 0) 16 (List.replicate 12 0) [] []) ∧
    ([7] ++ sealBytes ⟨false, false⟩ (fun _ _ => List.replicate 16 0)
      (List.replicate 32 0) 16 (List.replicate 12 0) [] []).take [7].length = [7] ∧
    ([7] ++ sealBytes ⟨false, false⟩ (fun _ _ => List.replicate 16 0)
      (List.replicate 32 0) 16 (List.replicate 12 0) [] []).length =
      [7].length + (([] : List Nat).length + 16) :=
  ⟨rfl,
    seal_appends_to_dst ⟨false, false⟩ (fun _ _ => List.replicate 16 0)
      (List.replicate 32 0) 16 [7] (List.replicate 12 0) [] [] rfl
      (fun _ _ => rfl) (by decide)⟩

/-- C2: on a 12-byte nonce, `Seal` outputs exactly the plaintext XORed
with the keystream that starts at block counter 1 with 20 rounds,
followed by the first `tagsize` bytes of the computed tag, and the
sealed output is `len(plaintext) + tagsize` bytes long. -/
theorem seal_ciphertext_and_length (caps : Caps) (mac : List Nat → List Nat → List Nat)
    (key : List Nat) (ts : Nat) (nonce pt ad : List Nat)
    (hnonce : nonce.length = 12) (hmac : ∀ k m, (mac k m).length = 16)
    (hts : ts ≤ 16) :
    Seal caps mac key ts [] nonce pt ad =
      Except.ok (xorBytes pt (keystreamN key nonce 1 20 (pt.length / 64 + 1)) ++
        (authenticate mac (sealCipher caps key nonce pt) ad
          (sealPolyKey caps key nonce)).take ts) ∧
    (sealBytes caps mac key ts nonce pt ad).length = pt.length + ts := by
  have hn : ¬(nonce.length ≠ NonceSize) := by
    rw [hnonce]
    intro hx
    exact hx rfl
  constructor
  · unfold Seal
    rw [if_neg hn, List.nil_append]
    rw [← xorKeyStreamCore_eq caps pt key nonce 1 20]
    rfl
  · exact length_sealBytes caps mac key ts nonce pt ad hmac hts

/-- Witness for C2 at a concrete input. -/
theorem seal_ciphertext_and_length_witness :
    (List.replicate 12 0).length = 12 ∧ 16 ≤ 16 ∧
    Seal ⟨false, false⟩ (fun _ _ => List.replicate 16 0) (List.replicate 32 0) 16 []
        (List.replicate 12 0) [0] [] =
      Except.ok (xorBytes [0] (keystreamN (List.replicate 32 0) (List.replicate 12 0) 1 20
          (([(0 : Nat)] : List Nat).length / 64 + 1)) ++
        (authenticate (fun _ _ => List.replicate 16 0)
          (sealCipher ⟨false, false⟩ (List.replicate 32 0) (List.replicate 12 0) [0]) []
          (sealPolyKey ⟨false, false⟩ (List.replicate 32 0) (List.replicate 12 0))).take 16) ∧
    (sealBytes ⟨false, false⟩ (fun _ _ => List.replicate 16 0) (List.replicate 32 0) 16
      (List.replicate 12 0) [0] []).length = ([(0 : Nat)] : List Nat).length + 16 :=
  ⟨rfl, by decide,
    (seal_ciphertext_and_length ⟨false, false⟩ (fun _ _ => List.replicate 16 0)
      (List.replicate 32 0) 16 (List.replicate 12 0) [0] [] rfl
      (fun _ _ => rfl) (by decide)).1,
    (seal_ciphertext_and_length ⟨false, false⟩ (fun _ _ => List.replicate 16 0)
      (List.replicate 32 0) 16 (List.replicate 12 0) [0] [] rfl
      (fun _ _ => rfl) (by decide)).2⟩

/-- C4: with a valid 12-byte nonce, every failure of `Open` — whether
the sealed input is shorter than the tag size or the recomputed tag's
first `tagsize` bytes differ from the received ones — is the one
undifferentiated authentication-failed error value, and an `Open`
failure carries no plaintext at all: the result is either a success or
exactly `Except.error errAuthFailed`. -/
theorem open_failure_single_error (caps : Caps) (mac : List Nat → List Nat → List Nat)
    (key : List Nat) (ts : Nat) (dst nonce ct ad : List Nat)
    (hnonce : nonce.length = 12) :
    (ct.length < ts → Open caps mac key ts dst nonce ct ad = Except.error errAuthFailed) ∧
    ((∃ pt, Open caps mac key ts dst nonce ct ad = Except.ok pt) ∨
      Open caps mac key ts dst nonce ct ad = Except.error errAuthFailed) := by
  have hn : ¬(nonce.length ≠ NonceSize) := by
    rw [hnonce]
    intro hx
    exact hx rfl
  constructor
  · intro hlt
    simp only [Open]
    rw [if_neg hn, if_pos hlt]
  · simp only [Open]
    rw [if_neg hn]
    by_cases hlt : ct.length < ts
    · right
      rw [if_pos hlt]
    · rw [if_neg hlt]
      by_cases hc : constantTimeCompare
          ((authenticate mac (ct.take (ct.length - ts)) ad
            (sealPolyKey caps key nonce)).take ts)
          ((ct.drop (ct.length - ts)).take ts) ≠ 1
      · right
        rw [if_pos hc]
      · left
        exact ⟨_, by rw [if_neg hc]⟩

/-- Witness for C4: a one-byte sealed input with a 16-byte tag size is
too short and fails with the single authentication error. -/
theorem open_failure_single_error_witness :
    (List.replicate 12 0).length = 12 ∧
    ([(0 : Nat)] : List Nat).length < 16 ∧
    Open ⟨false, false⟩ (fun _ _ => List.replicate 16 0) (List.replicate 32 0) 16 []
        (List.replicate 12 0) [0] [] = Except.error errAuthFailed ∧
    ((∃ pt, Open ⟨false, false⟩ (fun _ _ => List.replicate 16 0) (List.replicate 32 0) 16 []
        (List.replicate 12 0) [0] [] = Except.ok pt) ∨
      Open ⟨false, false⟩ (fun _ _ => List.replicate 16 0) (List.replicate 32 0) 16 []
        (List.replicate 12 0) [0] [] = Except.error errAuthFailed) :=
  ⟨rfl, by decide,
    (open_failure_single_error ⟨false, false⟩ (fun _ _ => List.replicate 16 0)
      (List.replicate 32 0) 16 [] (List.replicate 12 0) [0] [] rfl).1 (by decide),
    (open_failure_single_error ⟨false, false⟩ (fun _ _ => List.replicate 16 0)
      (List.replicate 32 0) 16 [] (List.replicate 12 0) [0] [] rfl).2⟩

/-- C1: round-trip — for a 32-byte key, a 12-byte nonce, any associated
data and plaintext, and a tag size in 1..16, `Seal` succeeds and `Open`
on the sealed output with the same nonce and associated data succeeds
and returns the original plaintext. -/
theorem seal_open_roundtrip (caps : Caps) (mac : List Nat → List Nat → List Nat)
    (key nonce pt ad : List Nat) (ts : Nat)
    (hkey : key.length = 32) (hnonce : nonce.length = 12)
    (hts1 : 1 ≤ ts) (hts2 : ts ≤ 16)
    (hmac : ∀ k m, (mac k m).length = 16) :
    Seal caps mac key ts [] nonce pt ad =
      Except.ok (sealBytes caps mac key ts nonce pt ad) ∧
    Open caps mac key ts [] nonce (sealBytes caps mac key ts nonce pt ad) ad =
      Except.ok pt := by
  have hn : ¬(nonce.length ≠ NonceSize) := by
    rw [hnonce]
    intro hx
    exact hx rfl
  have hlb : (sealBytes caps mac key ts nonce pt ad).length = pt.length + ts :=
    length_sealBytes caps mac key ts nonce pt ad hmac hts2
  constructor
  · unfold Seal
    rw [if_neg hn, List.nil_append]
  · simp only [Open]
    rw [if_neg hn]
    rw [if_neg (show ¬((sealBytes caps mac key ts nonce pt ad).length < ts) from by omega)]
    rw [show (sealBytes caps mac key ts nonce pt ad).length - ts = pt.length from by omega]
    have hct : (sealBytes caps mac key ts nonce pt ad).take pt.length =
        sealCipher caps key nonce pt := by
      unfold sealBytes
      exact List.take_left' (length_sealCipher caps key nonce pt)
    have hsum : (sealBytes caps mac key ts nonce pt ad).drop pt.length =
        (sealTag caps mac key nonce pt ad).take ts := by
      unfold sealBytes
      exact List.drop_left' (length_sealCipher caps key nonce pt)
    rw [hct, hsum]
    rw [show authenticate mac (sealCipher caps key nonce pt) ad (sealPolyKey caps key nonce) =
        sealTag caps mac key nonce pt ad from rfl]
    rw [List.take_take, Nat.min_self]
    rw [if_neg (show ¬(constantTimeCompare ((sealTag caps mac key nonce pt ad).take ts)
        ((sealTag caps mac key nonce pt ad).take ts) ≠ 1) from by
      rw [show constantTimeCompare ((sealTag caps mac key nonce pt ad).take ts)
          ((sealTag caps mac key nonce pt ad).take ts) = 1 from if_pos rfl]
      intro hx
      exact hx rfl)]
    rw [List.nil_append]
    rw [show sealCipher caps key nonce pt = xorKeyStreamCore caps pt key nonce 1 20 from rfl]
    rw [xorKeyStreamCore_cancel]

/-- Witness for C1 at a concrete input. -/
theorem seal_open_roundtrip_witness :
    (List.replicate 32 0).length = 32 ∧
    (List.replicate 12 0).length = 12 ∧
    Seal ⟨false, false⟩ (fun _ _ => List.replicate 16 0) (List.replicate 32 0) 16 []
        (List.replicate 12 0) [1, 2, 3] [4] =
      Except.ok (sealBytes ⟨false, false⟩ (fun _ _ => List.replicate 16 0)
        (List.replicate 32 0) 16 (List.replicate 12 0) [1, 2, 3] [4]) ∧
    Open ⟨false, false⟩ (fun _ _ => List.replicate 16 0) (List.replicate 32 0) 16 []
        (List.replicate 12 0) (sealBytes ⟨false, false⟩ (fun _ _ => List.replicate 16 0)
          (List.replicate 32 0) 16 (List.replicate 12 0) [1, 2, 3] [4]) [4] =
      Except.ok [1, 2, 3] :=
  ⟨rfl, rfl,
    (seal_open_roundtrip ⟨false, false⟩ (fun _ _ => List.replicate 16 0)
      (List.replicate 32 0) (List.replicate 12 0) [1, 2, 3] [4] 16 rfl rfl
      (by decide) (by decide) (fun _ _ => rfl)).1,
    (seal_open_roundtrip ⟨false, false⟩ (fun _ _ => List.replicate 16 0)
      (List.replicate 32 0) (List.replicate 12 0) [1, 2, 3] [4] 16 rfl rfl
      (by decide) (by decide) (fun _ _ => rfl)).2⟩
